import Mathlib

/-!
Verification of the filesystem-replication program (hub `src/server/index.js`,
edge `src/unnamed/part_000`, class `FileSystemClient`) against its
natural-language specification.

The edge ("client") keeps three pieces of mutable state that matter to the
protocol: `activeOperations` (a `Set` of string operation keys used for echo
suppression), `fileModes` (a `Map` from relative path to last-observed POSIX
mode bits), and `isInitialSync` (a flag set while the initial reconciliation
runs).  Handlers are embedded as pure functions; the filesystem side effects
and socket emissions a handler performs are reified as an ordered trace of
`Step`s or as a list of outbound messages, so that ordering properties
(register-before-write, immediate vs. deferred key release) are visible.
-/

namespace FsSync

/-- Operation key exactly as the client builds it in
`src/unnamed/part_000`: the template literal `event-path`
(lines 81, 97, 175, 252, 303, 312).  No collapsing of event kinds happens
in the source; the key is the raw event (or operation) name, a dash, and
the relative path. -/
def operationKey (event p : String) : String :=
  event ++ "-" ++ p

/-- Outbound socket message from the edge to the hub
(`socket.emit('fileOperation', ...)` / `socket.emit('requestFileContent', ...)`).
The `encoding` field ('base64') carried next to `content` is elided. -/
inductive OutMsg where
  | fileOperation (operation : String) (path : String) (content : Option String) (mode : Option Nat)
  | requestFileContent (path : String)
deriving DecidableEq

/-- One observable micro-step a client handler performs, in program order:
ledger registrations/releases, filesystem operations, and socket emissions.
`scheduleRelease k d` models `setTimeout(() => activeOperations.delete(k), d)`;
`releaseKey k` models a synchronous `activeOperations.delete(k)`. -/
inductive Step where
  | registerKey (k : String)
  | releaseKey (k : String)
  | scheduleRelease (k : String) (delayMs : Nat)
  | fsEnsureDirParent (p : String)
  | fsWrite (p : String) (content : String)
  | fsRemove (p : String)
  | fsEnsureDir (p : String)
  | fsChmod (p : String) (mode : Nat)
  | emit (m : OutMsg)
deriving DecidableEq

/-- Whether a step mutates the local filesystem. -/
def Step.isFsMutation : Step → Bool
  | .fsEnsureDirParent _ => true
  | .fsWrite _ _ => true
  | .fsRemove _ => true
  | .fsEnsureDir _ => true
  | .fsChmod _ _ => true
  | _ => false

/-- Whether a step is a socket emission. -/
def Step.isEmit : Step → Bool
  | .emit _ => true
  | _ => false

/-- The mutable state of `FileSystemClient` relevant to the protocol:
`activeOperations` (JS `Set<string>`, modelled as a duplicate-free list),
`fileModes` (JS `Map<string, number>`, modelled as an association list) and
the `isInitialSync` flag. -/
structure ClientState where
  activeOperations : List String
  fileModes : List (String × Nat)
  isInitialSync : Bool
deriving DecidableEq

/-- JS `Map.set`: replace the value of an existing key, else append. -/
def setEntry : List (String × Nat) → String → Nat → List (String × Nat)
  | [], k, v => [(k, v)]
  | (k', v') :: rest, k, v =>
      if k' = k then (k, v) :: rest else (k', v') :: setEntry rest k v

/-- JS `Map.delete`: remove the entry of a key (keys are unique in a `Map`,
so removing the first occurrence suffices). -/
def eraseEntry : List (String × Nat) → String → List (String × Nat)
  | [], _ => []
  | (k', v') :: rest, k =>
      if k' = k then rest else (k', v') :: eraseEntry rest k

/-- Effect of one `Step` on the client state: only ledger steps touch it
(`fileModes` and `isInitialSync` are updated directly by the handlers, never
through the trace). -/
def applyStep (s : ClientState) : Step → ClientState
  | .registerKey k => { s with activeOperations := s.activeOperations.insert k }
  | .releaseKey k => { s with activeOperations := s.activeOperations.erase k }
  | _ => s

/-- Run a trace of steps over the client state. -/
def runTrace (s : ClientState) (t : List Step) : ClientState :=
  t.foldl applyStep s

/-- Payload of a `fileSystemChange` broadcast (and of the data handed to
`handleServerChange`): event name, relative path, optional base64 content,
optional mode. -/
structure ServerChangeData where
  event : String
  path : String
  content : Option String
  mode : Option Nat
deriving DecidableEq

/-- Trace of `FileSystemClient.handleServerChange`
(`src/unnamed/part_000` lines 247-291): it builds the key
`event-path`, adds it to `activeOperations` (line 253), performs the
filesystem apply dictated by the event switch, and in the `finally` block
deletes the key synchronously (line 289).  For `add`/`change` with a
non-string `content` the switch `break`s before touching the filesystem
(lines 259-262); apply failures are caught and only logged. -/
def handleServerChangeTrace (d : ServerChangeData) : List Step :=
  let k := operationKey d.event d.path
  let body : List Step :=
    if d.event = "add" ∨ d.event = "change" then
      match d.content with
      | some c => [.fsEnsureDirParent d.path, .fsWrite d.path c]
      | none => []
    else if d.event = "unlink" then [.fsRemove d.path]
    else if d.event = "addDir" then [.fsEnsureDir d.path]
    else if d.event = "unlinkDir" then [.fsRemove d.path]
    else []
  .registerKey k :: body ++ [.releaseKey k]

/-- Trace of the `fileContent` socket handler
(`src/unnamed/part_000` lines 93-108): registers the key `write-path`,
ensures the parent directory, writes the decoded bytes, and in the
`finally` block deletes the key synchronously (line 106). -/
def fileContentTrace (p c : String) : List Step :=
  [.registerKey (operationKey "write" p),
   .fsEnsureDirParent p,
   .fsWrite p c,
   .releaseKey (operationKey "write" p)]

/-- Embedding of `FileSystemClient.applyChmod` (lines 236-245): `fs.chmod` then cache the
mode on success; a failure is caught and only logged, leaving the cache
untouched.  `ok` stands for whether the `fs.chmod` call succeeds. -/
def applyChmod (s : ClientState) (p : String) (m : Nat) (ok : Bool) : ClientState :=
  if ok then { s with fileModes := setEntry s.fileModes p m } else s

/-- JS truthiness of the `mode` field, as tested by
`data.event === 'chmod' && data.mode` (line 86). -/
def modeTruthy : Option Nat → Bool
  | some m => decide (m ≠ 0)
  | none => false

/-- The `fileSystemChange` socket handler (`src/unnamed/part_000`
lines 72-91): builds the key `event-path`; if it is in `activeOperations`
the event is ignored; a truthy chmod is applied via `applyChmod`; every
other event goes to `handleServerChange`.  (The `isInitialSync` test at
lines 74-80 only logs: its `return` is commented out in the source.)
Returns the new state together with the trace of performed steps. -/
def onFileSystemChange (s : ClientState) (d : ServerChangeData) (chmodOk : Bool) :
    ClientState × List Step :=
  let k := operationKey d.event d.path
  if k ∈ s.activeOperations then (s, [])
  else if d.event = "chmod" && modeTruthy d.mode then
    (applyChmod s d.path (d.mode.getD 0) chmodOk,
     if chmodOk then [.fsChmod d.path (d.mode.getD 0)] else [])
  else
    let t := handleServerChangeTrace d
    (runTrace s t, t)

/-- What the client observes about a path when handling a local change:
the file bytes read by `fs.readFile` and the mode bits from `fs.stat`.
`none` models the ENOENT / read-error branch (caught, only logged). -/
structure LocalObservation where
  content : String
  mode : Nat
deriving DecidableEq

/-- Result of `handleLocalChange`: the new state, the emitted
`fileOperation` messages in program order, and the keys whose release was
deferred via `setTimeout(..., 500)` in the `finally` block. -/
structure LocalChangeResult where
  state : ClientState
  msgs : List OutMsg
  scheduled : List String
deriving DecidableEq

/-- Embedding of `FileSystemClient.handleLocalChange` (`src/unnamed/part_000`
lines 163-234).  Returns unchanged state during initial sync, for an empty
relative path, or when the key `event-path` is already active.  Otherwise
registers the key and dispatches: `add`/`change` read the file, emit a
`chmod` operation first when the cached mode differs (JS `Map.get`
returning `undefined` counts as different), then emit the `write`;
`unlink`/`unlinkDir` drop the path from `fileModes` and emit a `delete`;
`addDir` caches the mode, emits a `chmod` unconditionally and then the
`mkdir`; an unknown event deletes the key and emits nothing.  The
`finally` block always schedules a deferred release of the key after
500 ms (line 232). -/
def handleLocalChange (s : ClientState) (event relPath : String)
    (obs : Option LocalObservation) : LocalChangeResult :=
  if s.isInitialSync then ⟨s, [], []⟩
  else if relPath = "" then ⟨s, [], []⟩
  else
    let k := operationKey event relPath
    if k ∈ s.activeOperations then ⟨s, [], []⟩
    else
      let s1 : ClientState := { s with activeOperations := s.activeOperations.insert k }
      if event = "add" ∨ event = "change" then
        match obs with
        | none => ⟨s1, [], [k]⟩
        | some o =>
          let modeChanged := s1.fileModes.lookup relPath ≠ some o.mode
          let s2 := if modeChanged then
              { s1 with fileModes := setEntry s1.fileModes relPath o.mode } else s1
          let chmodMsgs := if modeChanged then
              [OutMsg.fileOperation "chmod" relPath none (some o.mode)] else []
          ⟨s2, chmodMsgs ++ [OutMsg.fileOperation "write" relPath (some o.content) none], [k]⟩
      else if event = "unlink" then
        ⟨{ s1 with fileModes := eraseEntry s1.fileModes relPath },
         [OutMsg.fileOperation "delete" relPath none none], [k]⟩
      else if event = "addDir" then
        match obs with
        | none => ⟨s1, [], [k]⟩
        | some o =>
          ⟨{ s1 with fileModes := setEntry s1.fileModes relPath o.mode },
           [OutMsg.fileOperation "chmod" relPath none (some o.mode),
            OutMsg.fileOperation "mkdir" relPath none none], [k]⟩
      else if event = "unlinkDir" then
        ⟨{ s1 with fileModes := eraseEntry s1.fileModes relPath },
         [OutMsg.fileOperation "delete" relPath none none], [k]⟩
      else
        ⟨{ s1 with activeOperations := s1.activeOperations.erase k }, [], [k]⟩

/-- Embedding of `FileSystemClient.cacheFileModes` (lines 152-161): stats every listed
path and `Map.set`s its mode into the cache; it never removes an entry.
`observed` is the list of `(path, mode)` pairs the stat loop sees. -/
def cacheFileModes (fm : List (String × Nat)) (observed : List (String × Nat)) :
    List (String × Nat) :=
  observed.foldl (fun acc e => setEntry acc e.1 e.2) fm

/-! ## Directory snapshot builder

`FileSystemServer.getFileSystemState` (`src/server/index.js` lines 207-235)
and `FileSystemClient.getLocalFiles` (`src/unnamed/part_000` lines 331-353)
are the same recursive walk: `readdir` the current directory, skip every
entry whose name starts with a dot, push a directory entry and recurse into
it before moving to the next sibling, push a file entry with its size.
Relative paths are modelled as lists of path segments (`path.join` of the
base path and the entry name appends one segment). -/

/-- A directory tree as `readdir` exposes it: files with sizes, directories
with their child entries in `readdir` order. -/
inductive FsTree where
  | file (name : String) (size : Nat)
  | dir (name : String) (children : List FsTree)

/-- Entry kind tag, the JS `type` field (`'file'` / `'directory'`). -/
inductive ItemType where
  | file
  | directory
deriving DecidableEq

/-- One snapshot entry `{ path, type, size? }` with the path as a segment
list. -/
structure Item where
  path : List String
  type : ItemType
  size : Option Nat
deriving DecidableEq

/-- The test `entry.name.startsWith('.')`, the hidden-entry test of both walks:
does the name's first character exist and equal a dot? -/
def hiddenName (n : String) : Bool :=
  match n.data with
  | '.' :: _ => true
  | _ => false

/-- The recursive snapshot walk shared by `getFileSystemState` and
`getLocalFiles`: skip hidden names; for a directory push its entry, then
its recursively-walked children, then the remaining siblings; for a file
push its entry with the stat size. -/
def getFileSystemState : List String → List FsTree → List Item
  | _, [] => []
  | base, .file n sz :: ts =>
      (if hiddenName n then [] else [⟨base ++ [n], .file, some sz⟩])
        ++ getFileSystemState base ts
  | base, .dir n ch :: ts =>
      (if hiddenName n then []
       else ⟨base ++ [n], .directory, none⟩ :: getFileSystemState (base ++ [n]) ch)
        ++ getFileSystemState base ts
termination_by _ ts => sizeOf ts
decreasing_by all_goals simp_wf <;> omega

/-- The client walk `FileSystemClient.getLocalFiles` is the same walk as the server's
`getFileSystemState`. -/
def getLocalFiles : List String → List FsTree → List Item :=
  getFileSystemState

/-! ## Initial sync (`FileSystemClient.syncWithServer`, lines 293-329) -/

/-- The filesystem/transport actions the initial sync performs. -/
inductive SyncAction where
  | deleteLocal (p : List String)
  | ensureDir (p : List String)
  | requestContent (p : List String)
deriving DecidableEq

/-- Embedding of `FileSystemClient.syncWithServer` as the ordered list of actions it
performs: first `fs.remove` every local path absent from the server list,
then for each server entry `fs.ensureDir` a directory or
`socket.emit('requestFileContent')` for a file. -/
def syncWithServer (localItems serverItems : List Item) : List SyncAction :=
  ((localItems.map Item.path).filter
      (fun p => !((serverItems.map Item.path).contains p))).map SyncAction.deleteLocal
    ++ serverItems.map (fun it =>
        if it.type = ItemType.directory then SyncAction.ensureDir it.path
        else SyncAction.requestContent it.path)

/-! ## Replaying a snapshot as create operations (for the ordering claim) -/

/-- The set of directory paths created so far after replaying a list of
snapshot entries as create operations, starting from `created`. -/
def createdAfter (created : List (List String)) : List Item → List (List String)
  | [] => created
  | it :: rest =>
      createdAfter (if it.type = ItemType.directory then it.path :: created else created) rest

/-- Replaying the entries in order as create operations never references a
parent directory that is not in `created` yet (the root, path `[]`, is
pre-created). -/
def replayOk : List (List String) → List Item → Prop
  | _, [] => True
  | created, it :: rest =>
      it.path.dropLast ∈ created ∧
        replayOk (if it.type = ItemType.directory then it.path :: created else created) rest

/-! ## Path resolution on message receipt

Both the hub (`src/server/index.js` lines 99, 120, 138, 167) and the edge
(`src/unnamed/part_000` lines 95, 237, 249, 301, 311) compute the target of
a received path as `path.join(root, relativePath)` with no validation.
Node's `path.join` concatenates and normalizes: empty and `.` segments are
dropped and a `..` segment removes the preceding segment (an absolute path
cannot go above `/`).  Absolute paths are modelled as the list of their
segments after the leading separator. -/

/-- One step of Node path normalization over an absolute path's segment
stack. -/
def normStep (stack : List String) (seg : String) : List String :=
  if seg = "" ∨ seg = "." then stack
  else if seg = ".." then stack.dropLast
  else stack ++ [seg]

/-- Node path normalization of an absolute path given by its segments. -/
def normalizeAbs (segs : List String) : List String :=
  segs.foldl normStep []

/-- The computation `path.join(root, relativePath)` by which both agents derive the target of a
received message path (e.g. `const fullPath = path.join(this.watchDir,
relativePath)` in `handleClientOperation`). -/
def serverOpTarget (root rel : List String) : List String :=
  normalizeAbs (root ++ rel)

/-- Whether a resolved path lies under the root (the root itself included). -/
def isUnderRoot (root p : List String) : Bool :=
  root.isPrefixOf p

/-! ## The chokidar hidden-path filter

Both watchers are created with `ignored: /(^|[\/\\])\../` (server line 35,
client line 119): a path is ignored when a dot followed by one more
character appears at the start or right after a slash or backslash.  The
regex is embedded as a matcher over the path's character list. -/

/-- Does `[/\\]\..` match starting at some position of the list? -/
def ignoredAt : List Char → Bool
  | [] => false
  | c :: rest =>
      ((c = '/' ∨ c = '\\') &&
        match rest with
        | '.' :: _ :: _ => true
        | _ => false)
      || ignoredAt rest

/-- Does `^\..` match, i.e. does the path start with a dot followed by one
more character? -/
def startDot : List Char → Bool
  | '.' :: _ :: _ => true
  | _ => false

/-- The full chokidar `ignored` test `/(^|[\/\\])\../`. -/
def chokidarIgnored (l : List Char) : Bool :=
  startDot l || ignoredAt l

/-! ## Hub content queries (`requestFileContent`, server lines 97-114) -/

/-- A node of the hub's on-disk state: a regular file with its bytes, or a
directory. -/
inductive FsNode where
  | file (content : String)
  | directory
deriving DecidableEq

/-- The hub's on-disk state as a map from absolute segment path to node. -/
def FsMap := List (List String × FsNode)

/-- Lookup of an absolute path in the hub state. -/
def lookupFsMap : FsMap → List String → Option FsNode
  | [], _ => none
  | (p, n) :: rest, q => if p = q then some n else lookupFsMap rest q

/-- Messages the hub can send while answering a content query. -/
inductive ServerReply where
  | fileContent (path : List String) (content : String) (encoding : String)
  | operationError (message : String) (operation : String) (path : List String)
deriving DecidableEq

/-- Who a reply is addressed to: `socket.emit` targets the requesting
session only, `io.emit` broadcasts to every session. -/
inductive SendTarget where
  | requester
  | broadcast
deriving DecidableEq

/-- The `requestFileContent` socket handler (server lines 97-114): resolve
the requested path under the watch directory; if it exists and is a regular
file, `socket.emit` its base64 bytes back; otherwise (missing, or a
directory) `socket.emit` a not-found `operationError`.  Every emission in
this handler goes through `socket.emit`, i.e. to the requester only. -/
def onRequestFileContent (root : List String) (fs : FsMap) (p : List String) :
    List (SendTarget × ServerReply) :=
  match lookupFsMap fs (serverOpTarget root p) with
  | some (.file c) => [(.requester, .fileContent p c "base64")]
  | _ => [(.requester,
      .operationError "File not found on server" "requestFileContent" p)]

/-! ## Helper lemmas -/

theorem applyStep_fileModes (s : ClientState) (st : Step) :
    (applyStep s st).fileModes = s.fileModes := by
  cases st <;> rfl

theorem applyStep_isInitialSync (s : ClientState) (st : Step) :
    (applyStep s st).isInitialSync = s.isInitialSync := by
  cases st <;> rfl

theorem runTrace_fileModes (t : List Step) :
    ∀ s : ClientState, (runTrace s t).fileModes = s.fileModes := by
  induction t with
  | nil => intro s; rfl
  | cons st rest ih =>
      intro s
      show (runTrace (applyStep s st) rest).fileModes = s.fileModes
      rw [ih, applyStep_fileModes]

theorem runTrace_isInitialSync (t : List Step) :
    ∀ s : ClientState, (runTrace s t).isInitialSync = s.isInitialSync := by
  induction t with
  | nil => intro s; rfl
  | cons st rest ih =>
      intro s
      show (runTrace (applyStep s st) rest).isInitialSync = s.isInitialSync
      rw [ih, applyStep_isInitialSync]

/-! ## Claim theorems -/

/-- Claim C1: the claim states that whenever the edge applies a
remotely-received mutation (a `fileSystemChange` broadcast or a
`fileContent` reply) it registers the operation key before the write and
releases it only after the 500 ms grace window, never immediately.  The
code registers the key first, but both `handleServerChange` and the
`fileContent` handler delete the key synchronously in their `finally`
blocks the moment the apply completes: the trace always contains an
immediate `releaseKey` and never a deferred `scheduleRelease`.  (The
500 ms `setTimeout` release exists only in `handleLocalChange`.) -/
theorem handleServerChange_release_not_deferred :
    (∀ (e p : String) (c : Option String) (m : Option Nat),
        e ∈ (["add", "change", "unlink", "addDir", "unlinkDir"] : List String) →
        (handleServerChangeTrace ⟨e, p, c, m⟩).head? =
            some (.registerKey (operationKey e p)) ∧
        Step.releaseKey (operationKey e p) ∈ handleServerChangeTrace ⟨e, p, c, m⟩ ∧
        ∀ k d, Step.scheduleRelease k d ∉ handleServerChangeTrace ⟨e, p, c, m⟩) ∧
    (∀ p c : String,
        (fileContentTrace p c).head? = some (.registerKey (operationKey "write" p)) ∧
        Step.releaseKey (operationKey "write" p) ∈ fileContentTrace p c ∧
        ∀ k d, Step.scheduleRelease k d ∉ fileContentTrace p c) := by
  constructor
  · intro e p c m he
    simp only [List.mem_cons, List.not_mem_nil, or_false] at he
    rcases he with rfl | rfl | rfl | rfl | rfl <;>
      cases c <;>
        simp [handleServerChangeTrace, operationKey]
  · intro p c
    simp [fileContentTrace, operationKey]

/-- Witness for C1 at the failing input: the edge applies a remote `change`
broadcast for `a.txt`; its trace contains the immediate synchronous release
of the key. -/
theorem handleServerChange_release_not_deferred_witness :
    Step.releaseKey (operationKey "change" "a.txt") ∈
      handleServerChangeTrace ⟨"change", "a.txt", some "aGk=", none⟩ :=
  (handleServerChange_release_not_deferred.1 "change" "a.txt" (some "aGk=") none
    (by decide)).2.1

/-- Claim C10: an `add` or `change` broadcast whose `content` field is not
a string makes the edge perform no filesystem mutation and send nothing
back: the trace of `handleServerChange` contains no filesystem step and no
emission (the handler is total, so no exception escapes either). -/
theorem invalid_content_no_write_no_reply :
    ∀ (e p : String) (m : Option Nat),
      e = "add" ∨ e = "change" →
      (handleServerChangeTrace ⟨e, p, none, m⟩).filter Step.isFsMutation = [] ∧
      (handleServerChangeTrace ⟨e, p, none, m⟩).filter Step.isEmit = [] := by
  intro e p m h
  rcases h with rfl | rfl <;>
    simp [handleServerChangeTrace, List.filter, Step.isFsMutation, Step.isEmit]

/-- Witness for C10: a concrete `add` broadcast for `note.txt` without
content mutates nothing and emits nothing. -/
theorem invalid_content_no_write_no_reply_witness :
    (handleServerChangeTrace ⟨"add", "note.txt", none, none⟩).filter
        Step.isFsMutation = [] ∧
    (handleServerChangeTrace ⟨"add", "note.txt", none, none⟩).filter
        Step.isEmit = [] :=
  invalid_content_no_write_no_reply "add" "note.txt" none (Or.inl rfl)

/-- Claim C2: the claim states that a change-source event firing for the
same path right after a remotely applied mutation produces no outbound
`fileOperation`.  In the code the key is already gone when the watcher
event arrives (it was deleted in the `finally` block of
`handleServerChange`), so `handleLocalChange` finds no active key and
re-sends the mutation to the hub: after applying a remote `change` for `p`,
a local `change` event for `p` emits an outbound `write` operation. -/
theorem remote_apply_echo_resent :
    ∀ (s : ClientState) (p c : String) (o : LocalObservation),
      s.isInitialSync = false →
      p ≠ "" →
      operationKey "change" p ∉ s.activeOperations →
      OutMsg.fileOperation "write" p (some o.content) none ∈
        (handleLocalChange
          ((onFileSystemChange s ⟨"change", p, some c, none⟩ true).1)
          "change" p (some o)).msgs := by
  intro s p c o hsync hp hk
  have htrace : handleServerChangeTrace ⟨"change", p, some c, none⟩ =
      [.registerKey (operationKey "change" p), .fsEnsureDirParent p,
       .fsWrite p c, .releaseKey (operationKey "change" p)] := by
    simp [handleServerChangeTrace]
  have hbranch : (onFileSystemChange s ⟨"change", p, some c, none⟩ true).1 =
      runTrace s (handleServerChangeTrace ⟨"change", p, some c, none⟩) := by
    simp [onFileSystemChange, hk]
  have hactive : (runTrace s (handleServerChangeTrace ⟨"change", p, some c, none⟩)).activeOperations
      = s.activeOperations := by
    rw [htrace]
    show ((((s.activeOperations.insert (operationKey "change" p)).erase
        (operationKey "change" p)) : List String) = s.activeOperations)
    rw [List.insert_of_not_mem hk, List.erase_cons_head]
  rw [hbranch]
  set s' := runTrace s (handleServerChangeTrace ⟨"change", p, some c, none⟩) with hs'
  have h1 : s'.isInitialSync = false := by
    rw [hs', runTrace_isInitialSync, hsync]
  have h2 : operationKey "change" p ∉ s'.activeOperations := by
    rw [hs', hactive]; exact hk
  simp only [handleLocalChange, h1, Bool.false_eq_true, if_false, hp, if_neg h2,
    if_neg (fun h => hp h)]
  simp [List.mem_append]

/-- Witness for C2 at the failing input: starting from a quiescent state,
the edge applies a remote `change` for `a.txt`; the immediately following
local `change` event for `a.txt` is re-sent as an outbound `write`. -/
theorem remote_apply_echo_resent_witness :
    OutMsg.fileOperation "write" "a.txt" (some "aGk=") none ∈
      (handleLocalChange
        ((onFileSystemChange ⟨[], [], false⟩ ⟨"change", "a.txt", some "aGk=", none⟩ true).1)
        "change" "a.txt" (some ⟨"aGk=", 420⟩)).msgs :=
  remote_apply_echo_resent ⟨[], [], false⟩ "a.txt" "aGk=" ⟨"aGk=", 420⟩ rfl
    (by decide) (by decide)

/-- Counterexample to claim C3: the claim says `Added`/`Modified` collapse
into one `write` key family, so a locally detected `add` and a remotely
applied `change` for the same path share a key and suppress each other.
In the code the key is the raw event name: with the local `add` key for
`f.txt` active, `add-f.txt` and `change-f.txt` differ, and an incoming
server `change` for `f.txt` is applied (its trace performs the write)
instead of being suppressed. -/
theorem operationKey_no_family_collapse_cex :
    operationKey "add" "f.txt" ≠ operationKey "change" "f.txt" ∧
    Step.fsWrite "f.txt" "Zg==" ∈
      (onFileSystemChange ⟨[operationKey "add" "f.txt"], [], false⟩
        ⟨"change", "f.txt", some "Zg==", none⟩ true).2 := by
  decide

/-- Claim C3 (amended): the echo-suppression identity is the raw event (or
operation) name concatenated with a dash and the relative path, with no
collapsing of event kinds into families: for one path, two event names
yield the same key exactly when they are equal, and a pending local `add`
key does not suppress a remotely received `change` for the same path,
whose write is applied (and so may be re-observed). -/
theorem operationKey_raw_event_identity :
    (∀ e₁ e₂ p : String, operationKey e₁ p = operationKey e₂ p ↔ e₁ = e₂) ∧
    (∀ (s : ClientState) (p c : String),
        operationKey "change" p ∉ s.activeOperations →
        Step.fsWrite p c ∈ (onFileSystemChange s ⟨"change", p, some c, none⟩ true).2) := by
  constructor
  · intro e1 e2 p
    constructor
    · intro h
      have h2 := congrArg String.data h
      simp only [String.data_append] at h2
      exact String.ext (List.append_cancel_right (List.append_cancel_right h2))
    · rintro rfl; rfl
  · intro s p c hk
    simp [onFileSystemChange, hk, handleServerChangeTrace]

/-- Witness for the amended C3: with the local `add-f.txt` key active, a
server `change` for `f.txt` is still applied. -/
theorem operationKey_raw_event_identity_witness :
    Step.fsWrite "f.txt" "Zg==" ∈
      (onFileSystemChange ⟨[operationKey "add" "f.txt"], [], false⟩
        ⟨"change", "f.txt", some "Zg==", none⟩ true).2 :=
  operationKey_raw_event_identity.2 ⟨[operationKey "add" "f.txt"], [], false⟩
    "f.txt" "Zg==" (by decide)

theorem foldl_normStep_keeps (rel : List String) :
    ∀ stack : List String, (∀ x ∈ rel, x ≠ "..") →
      stack <+: List.foldl normStep stack rel := by
  induction rel with
  | nil => intro stack _; exact List.prefix_refl stack
  | cons x rel ih =>
      intro stack h
      have hx : x ≠ ".." := h x (List.mem_cons_self x rel)
      have hrest : ∀ y ∈ rel, y ≠ ".." := fun y hy => h y (List.mem_cons_of_mem x hy)
      show stack <+: List.foldl normStep (normStep stack x) rel
      by_cases hskip : x = "" ∨ x = "."
      · rw [normStep, if_pos hskip]; exact ih stack hrest
      · rw [normStep, if_neg hskip, if_neg hx]
        exact (List.prefix_append stack [x]).trans (ih (stack ++ [x]) hrest)

theorem foldl_normStep_clean (root : List String) :
    ∀ acc : List String, (∀ x ∈ root, x ≠ "" ∧ x ≠ "." ∧ x ≠ "..") →
      List.foldl normStep acc root = acc ++ root := by
  induction root with
  | nil => intro acc _; rw [List.append_nil]; rfl
  | cons x root ih =>
      intro acc h
      have hx := h x (List.mem_cons_self x root)
      have hrest : ∀ y ∈ root, y ≠ "" ∧ y ≠ "." ∧ y ≠ ".." :=
        fun y hy => h y (List.mem_cons_of_mem x hy)
      show List.foldl normStep (normStep acc x) root = acc ++ x :: root
      have hstep : normStep acc x = acc ++ [x] := by
        rw [normStep, if_neg (by tauto), if_neg hx.2.2]
      rw [hstep, ih (acc ++ [x]) hrest, List.append_assoc, List.singleton_append]

/-- Counterexample to claim C4: the claim says a message carrying a path
with `..` segments cannot cause an operation outside the receiving
replica's root.  Neither agent validates received paths before
`path.join(root, relativePath)`, and `path.join` resolves `..`: a
`fileOperation` carrying the path `../../etc/passwd` received by a hub
rooted at `/home/sync` targets `/etc/passwd`, outside the root. -/
theorem serverOpTarget_dotdot_escapes_cex :
    serverOpTarget ["home", "sync"] ["..", "..", "etc", "passwd"] = ["etc", "passwd"] ∧
    isUnderRoot ["home", "sync"]
      (serverOpTarget ["home", "sync"] ["..", "..", "etc", "passwd"]) = false := by
  decide

/-- Claim C4 (amended): the receiving replica derives the target of every
transport message by joining its root with the received path, with no
validation.  When the received path contains no `..` segment the target
always lies under the root (so well-formed protocol paths are safe), but a
received path with `..` segments resolves outside the root. -/
theorem serverOpTarget_under_root_without_dotdot :
    ∀ root rel : List String,
      (∀ x ∈ root, x ≠ "" ∧ x ≠ "." ∧ x ≠ "..") →
      (∀ x ∈ rel, x ≠ "..") →
      isUnderRoot root (serverOpTarget root rel) = true := by
  intro root rel hroot hrel
  have hclean : normalizeAbs (root ++ rel) = List.foldl normStep root rel := by
    rw [normalizeAbs, List.foldl_append, foldl_normStep_clean root [] hroot,
      List.nil_append]
  rw [isUnderRoot, serverOpTarget, hclean, List.isPrefixOf_iff_prefix]
  exact foldl_normStep_keeps rel root hrel

/-- Witness for the amended C4: a hub rooted at `/home/sync` resolves the
received path `docs/a.txt` under its root. -/
theorem serverOpTarget_under_root_without_dotdot_witness :
    isUnderRoot ["home", "sync"]
      (serverOpTarget ["home", "sync"] ["docs", "a.txt"]) = true :=
  serverOpTarget_under_root_without_dotdot ["home", "sync"] ["docs", "a.txt"]
    (by decide) (by decide)

/-- Claim C5: given the hub snapshot, the initial sync deletes every local
(non-hidden, since `getLocalFiles` reports only non-hidden entries) path
absent from the hub snapshot, ensures a directory for every hub directory
entry, and issues a content query for every hub file entry. -/
theorem syncWithServer_reconciliation :
    ∀ (localTree : List FsTree) (serverItems : List Item),
      (∀ it ∈ getLocalFiles [] localTree,
          it.path ∉ serverItems.map Item.path →
          SyncAction.deleteLocal it.path ∈
            syncWithServer (getLocalFiles [] localTree) serverItems) ∧
      (∀ it ∈ serverItems, it.type = ItemType.directory →
          SyncAction.ensureDir it.path ∈
            syncWithServer (getLocalFiles [] localTree) serverItems) ∧
      (∀ it ∈ serverItems, it.type = ItemType.file →
          SyncAction.requestContent it.path ∈
            syncWithServer (getLocalFiles [] localTree) serverItems) := by
  intro localTree serverItems
  refine ⟨?_, ?_, ?_⟩
  · intro it hit habs
    refine List.mem_append_left _ (List.mem_map_of_mem _ ?_)
    rw [List.mem_filter]
    refine ⟨List.mem_map_of_mem Item.path hit, ?_⟩
    simpa [List.elem_iff] using habs
  · intro it hit hdir
    refine List.mem_append_right _ ?_
    rw [List.mem_map]
    exact ⟨it, hit, by rw [if_pos hdir]⟩
  · intro it hit hfile
    refine List.mem_append_right _ ?_
    rw [List.mem_map]
    refine ⟨it, hit, ?_⟩
    rw [if_neg (by rw [hfile]; intro h; cases h)]

/-- Witness for C5, the spec's Scenario B: the edge has a local-only
`stale.txt`, the hub has `a.txt` and `docs/`; the sync deletes `stale.txt`,
ensures `docs` and queries the content of `a.txt`. -/
theorem syncWithServer_reconciliation_witness :
    SyncAction.deleteLocal ["stale.txt"] ∈
      syncWithServer (getLocalFiles [] [.file "stale.txt" 4])
        [⟨["a.txt"], .file, some 5⟩, ⟨["docs"], .directory, none⟩] ∧
    SyncAction.ensureDir ["docs"] ∈
      syncWithServer (getLocalFiles [] [.file "stale.txt" 4])
        [⟨["a.txt"], .file, some 5⟩, ⟨["docs"], .directory, none⟩] ∧
    SyncAction.requestContent ["a.txt"] ∈
      syncWithServer (getLocalFiles [] [.file "stale.txt" 4])
        [⟨["a.txt"], .file, some 5⟩, ⟨["docs"], .directory, none⟩] := by
  have h := syncWithServer_reconciliation [.file "stale.txt" 4]
    [⟨["a.txt"], .file, some 5⟩, ⟨["docs"], .directory, none⟩]
  refine ⟨h.1 ⟨["stale.txt"], .file, some 4⟩ ?_ (by decide),
          h.2.1 ⟨["docs"], .directory, none⟩ (by decide) rfl,
          h.2.2 ⟨["a.txt"], .file, some 5⟩ (by decide) rfl⟩
  simp [getLocalFiles, getFileSystemState, hiddenName]

theorem getFileSystemState_no_hidden :
    ∀ (base : List String) (ts : List FsTree), ∀ it ∈ getFileSystemState base ts,
      ∀ s ∈ it.path, s ∈ base ∨ hiddenName s = false := by
  intro base ts
  induction base, ts using getFileSystemState.induct with
  | case1 base =>
      intro it hit
      simp [getFileSystemState] at hit
  | case2 base n sz ts ih =>
      intro it hit s hs
      rw [getFileSystemState, List.mem_append] at hit
      rcases hit with hleft | hright
      · by_cases hn : hiddenName n
        · rw [if_pos hn] at hleft; cases hleft
        · rw [if_neg hn, List.mem_singleton] at hleft
          subst hleft
          simp only [List.mem_append, List.mem_singleton] at hs
          rcases hs with hs | rfl
          · exact Or.inl hs
          · exact Or.inr (by simpa using hn)
      · exact ih it hright s hs
  | case3 base n ch ts ih1 ih2 =>
      intro it hit s hs
      rw [getFileSystemState, List.mem_append] at hit
      rcases hit with hleft | hright
      · by_cases hn : hiddenName n
        · rw [if_pos hn] at hleft; cases hleft
        · rw [if_neg hn, List.mem_cons] at hleft
          rcases hleft with rfl | hch
          · simp only [List.mem_append, List.mem_singleton] at hs
            rcases hs with hs | rfl
            · exact Or.inl hs
            · exact Or.inr (by simpa using hn)
          · rcases ih1 it hch s hs with hbase | hok
            · rw [List.mem_append, List.mem_singleton] at hbase
              rcases hbase with hs | rfl
              · exact Or.inl hs
              · exact Or.inr (by simpa using hn)
            · exact Or.inr hok
      · exact ih2 it hright s hs

theorem ignoredAt_slash_dot (l : List Char) :
    ∀ (c : Char) (r : List Char), ignoredAt (l ++ '/' :: '.' :: c :: r) = true := by
  induction l with
  | nil => intro c r; simp [ignoredAt]
  | cons x l ih => intro c r; simp [ignoredAt, ih]

/-- Claim C6: no path with a leading-dot segment ever appears in a
snapshot (every segment of every entry both walks produce is non-hidden),
and the change source never delivers one: the chokidar `ignored` pattern
`/(^|[\/\\])\../` matches any watched path in which a dot followed by a
character comes right after a slash — in particular any path whose last
segment is a hidden name. -/
theorem hidden_excluded_snapshot_and_watch :
    (∀ ts : List FsTree, ∀ it ∈ getFileSystemState [] ts,
        ∀ s ∈ it.path, hiddenName s = false) ∧
    (∀ (l r : List Char) (c : Char),
        chokidarIgnored (l ++ '/' :: '.' :: c :: r) = true) := by
  constructor
  · intro ts it hit s hs
    rcases getFileSystemState_no_hidden [] ts it hit s hs with h | h
    · cases h
    · exact h
  · intro l r c
    rw [chokidarIgnored, ignoredAt_slash_dot l c r, Bool.or_true]

/-- Witness for C6: a concrete walk entry has only non-hidden segments, and
a concrete watched path ending in a hidden segment matches the ignore
pattern. -/
theorem hidden_excluded_snapshot_and_watch_witness :
    hiddenName "a.txt" = false ∧
    chokidarIgnored ['/', 'r', '/', '.', 'h'] = true := by
  constructor
  · exact hidden_excluded_snapshot_and_watch.1 [.dir "docs" [.file "a.txt" 5]]
      ⟨["docs", "a.txt"], .file, some 5⟩
      (by simp [getFileSystemState, hiddenName]) "a.txt" (by decide)
  · exact hidden_excluded_snapshot_and_watch.2 ['/', 'r'] [] 'h'

theorem createdAfter_of_append (xs : List Item) :
    ∀ (created : List (List String)) (ys : List Item),
      createdAfter created (xs ++ ys) = createdAfter (createdAfter created xs) ys := by
  induction xs with
  | nil => intro created ys; rfl
  | cons it xs ih =>
      intro created ys
      simp only [List.cons_append, createdAfter]
      exact ih _ ys

theorem replayOk_append_intro (xs : List Item) :
    ∀ (created : List (List String)) (ys : List Item),
      replayOk created xs → replayOk (createdAfter created xs) ys →
      replayOk created (xs ++ ys) := by
  induction xs with
  | nil => intro created ys _ h2; exact h2
  | cons it xs ih =>
      intro created ys h1 h2
      simp only [List.cons_append, replayOk] at h1 ⊢
      simp only [createdAfter] at h2
      exact ⟨h1.1, ih _ ys h1.2 h2⟩

theorem getFileSystemState_replay :
    ∀ (base : List String) (ts : List FsTree), ∀ created : List (List String),
      base ∈ created →
      replayOk created (getFileSystemState base ts) ∧
      ∀ q ∈ created, q ∈ createdAfter created (getFileSystemState base ts) := by
  intro base ts
  induction base, ts using getFileSystemState.induct with
  | case1 base =>
      intro created hbase
      rw [getFileSystemState]
      exact ⟨trivial, fun q hq => hq⟩
  | case2 base n sz ts ih =>
      intro created hbase
      rw [getFileSystemState]
      by_cases hn : hiddenName n
      · rw [if_pos hn, List.nil_append]
        exact ih created hbase
      · rw [if_neg hn, List.singleton_append]
        refine ⟨?_, ?_⟩
        · simp only [replayOk]
          refine ⟨by rw [List.dropLast_concat]; exact hbase, ?_⟩
          simp only [if_neg (fun h : ItemType.file = ItemType.directory => by cases h)]
          exact (ih created hbase).1
        · intro q hq
          simp only [createdAfter,
            if_neg (fun h : ItemType.file = ItemType.directory => by cases h)]
          exact (ih created hbase).2 q hq
  | case3 base n ch ts ih1 ih2 =>
      intro created hbase
      rw [getFileSystemState]
      by_cases hn : hiddenName n
      · rw [if_pos hn, List.nil_append]
        exact ih2 created hbase
      · rw [if_neg hn, List.cons_append]
        have hmem1 : base ++ [n] ∈ (base ++ [n]) :: created := List.mem_cons_self _ _
        have hch := ih1 ((base ++ [n]) :: created) hmem1
        have hbase2 : base ∈ createdAfter ((base ++ [n]) :: created)
            (getFileSystemState (base ++ [n]) ch) :=
          hch.2 base (List.mem_cons_of_mem _ hbase)
        have hts := ih2 (createdAfter ((base ++ [n]) :: created)
            (getFileSystemState (base ++ [n]) ch)) hbase2
        refine ⟨?_, ?_⟩
        · simp only [replayOk]
          refine ⟨by rw [List.dropLast_concat]; exact hbase, ?_⟩
          simp only [↓reduceIte]
          exact replayOk_append_intro _ _ _ hch.1 hts.1
        · intro q hq
          simp only [createdAfter, ↓reduceIte, createdAfter_of_append]
          exact hts.2 q (hch.2 q (List.mem_cons_of_mem _ hq))

/-- Claim C7: in every snapshot the walk produces, replaying the entries in
order as create operations never references a parent directory that has
not been created yet (the walk root, path `[]`, is pre-created): every
entry's parent is already in the created set when the entry is reached,
because each directory entry is pushed before its recursively-walked
descendants. -/
theorem snapshot_replay_parents_exist :
    ∀ ts : List FsTree, replayOk [[]] (getFileSystemState [] ts) :=
  fun ts =>
    (getFileSystemState_replay [] ts [[]] (List.mem_singleton.mpr rfl)).1

theorem lookup_eq_none_of_not_mem_keys :
    ∀ (l : List (String × Nat)) (p : String), p ∉ l.map Prod.fst →
      l.lookup p = none := by
  intro l
  induction l with
  | nil => intro p _; rfl
  | cons e rest ih =>
      intro p hp
      simp only [List.map_cons, List.mem_cons] at hp
      push_neg at hp
      simp only [List.lookup]
      rw [show (p == e.1) = false from beq_eq_false_iff_ne.mpr hp.1]
      exact ih p hp.2

theorem lookup_eraseEntry_self :
    ∀ (l : List (String × Nat)) (p : String), (l.map Prod.fst).Nodup →
      (eraseEntry l p).lookup p = none := by
  intro l
  induction l with
  | nil => intro p _; rfl
  | cons e rest ih =>
      intro p hnod
      obtain ⟨k, v⟩ := e
      simp only [List.map_cons, List.nodup_cons] at hnod
      rw [eraseEntry]
      by_cases hk : k = p
      · rw [if_pos hk]
        exact lookup_eq_none_of_not_mem_keys rest p (hk ▸ hnod.1)
      · rw [if_neg hk]
        simp only [List.lookup]
        rw [show (p == k) = false from beq_eq_false_iff_ne.mpr (fun h => hk h.symm)]
        exact ih p hnod.2

theorem setEntry_mem_of_ne :
    ∀ (l : List (String × Nat)) (q : String) (v : Nat) (p : String) (m : Nat),
      (p, m) ∈ l → q ≠ p → (p, m) ∈ setEntry l q v := by
  intro l
  induction l with
  | nil => intro q v p m hm _; cases hm
  | cons e rest ih =>
      intro q v p m hm hq
      obtain ⟨k, w⟩ := e
      rw [setEntry]
      by_cases hk : k = q
      · rw [if_pos hk]
        rcases List.mem_cons.mp hm with heq | hrest
        · exfalso
          injection heq with h1 h2
          subst h1
          exact absurd hk.symm hq
        · exact List.mem_cons_of_mem _ hrest
      · rw [if_neg hk]
        rcases List.mem_cons.mp hm with heq | hrest
        · exact heq ▸ List.mem_cons_self _ _
        · exact List.mem_cons_of_mem _ (ih q v p m hrest hq)

theorem cacheFileModes_keeps :
    ∀ (observed : List (String × Nat)) (fm : List (String × Nat)) (p : String) (m : Nat),
      (p, m) ∈ fm → p ∉ observed.map Prod.fst →
      (p, m) ∈ cacheFileModes fm observed := by
  intro observed
  induction observed with
  | nil => intro fm p m hm _; exact hm
  | cons e obs ih =>
      intro fm p m hm hp
      simp only [List.map_cons, List.mem_cons] at hp
      push_neg at hp
      exact ih _ p m (setEntry_mem_of_ne fm e.1 e.2 p m hm (fun h => hp.1 h.symm)) hp.2

/-- Counterexample to claim C8: the claim says every operation that removes
a path also removes that path's mode-cache entry immediately.  A remotely
applied `unlink` broadcast for `a.txt` goes through `handleServerChange`,
which never touches `fileModes`: the stale entry is still in the cache
afterwards. -/
theorem remote_unlink_keeps_mode_entry_cex :
    ("a.txt", 420) ∈
      ((onFileSystemChange ⟨[], [("a.txt", 420)], false⟩
          ⟨"unlink", "a.txt", none, none⟩ true).1).fileModes := by
  decide

/-- Claim C8 (amended): only locally observed deletes remove the mode-cache
entry: `handleLocalChange` on `unlink`/`unlinkDir` drops the path from
`fileModes`; a remotely applied `unlink`/`unlinkDir` broadcast leaves
`fileModes` unchanged; and the cache warm-up run after initial sync only
inserts or updates entries for listed paths, never removing an entry whose
path was deleted. -/
theorem mode_cache_removal_local_only :
    (∀ (s : ClientState) (e p : String) (obs : Option LocalObservation),
        e = "unlink" ∨ e = "unlinkDir" →
        s.isInitialSync = false → p ≠ "" →
        operationKey e p ∉ s.activeOperations →
        (s.fileModes.map Prod.fst).Nodup →
        ((handleLocalChange s e p obs).state.fileModes.lookup p) = none) ∧
    (∀ (s : ClientState) (d : ServerChangeData) (ok : Bool),
        d.event = "unlink" ∨ d.event = "unlinkDir" →
        (onFileSystemChange s d ok).1.fileModes = s.fileModes) ∧
    (∀ (observed fm : List (String × Nat)) (p : String) (m : Nat),
        (p, m) ∈ fm → p ∉ observed.map Prod.fst →
        (p, m) ∈ cacheFileModes fm observed) := by
  refine ⟨?_, ?_, cacheFileModes_keeps⟩
  · intro s e p obs he hsync hp hk hnod
    rcases he with rfl | rfl <;>
    · simp only [handleLocalChange, hsync, Bool.false_eq_true, if_false, if_neg hp,
        if_neg hk]
      simp only [↓reduceIte, String.reduceEq, or_self, or_false, false_or]
      exact lookup_eraseEntry_self s.fileModes p hnod
  · intro s d ok hd
    obtain ⟨ev, pth, ct, md⟩ := d
    have hev : ev ≠ "chmod" := by
      rcases hd with h | h <;> subst h <;> decide
    rw [onFileSystemChange]
    by_cases hk : operationKey ev pth ∈ s.activeOperations
    · rw [if_pos hk]
    · rw [if_neg hk]
      have hcond : (decide (ev = "chmod") && modeTruthy md) = false := by
        rw [decide_eq_false hev, Bool.false_and]
      rw [hcond]
      simp only [Bool.false_eq_true, if_false]
      exact runTrace_fileModes _ s

/-- Witness for the amended C8: a local `unlink` of `a.txt` clears its
cache entry; a remote `unlink` broadcast leaves it; the warm-up keeps an
entry whose path is not among the stat results. -/
theorem mode_cache_removal_local_only_witness :
    ((handleLocalChange ⟨[], [("a.txt", 420)], false⟩ "unlink" "a.txt"
        none).state.fileModes.lookup "a.txt") = none ∧
    (onFileSystemChange ⟨[], [("a.txt", 420)], false⟩
        ⟨"unlink", "a.txt", none, none⟩ true).1.fileModes = [("a.txt", 420)] ∧
    ("b.txt", 444) ∈ cacheFileModes [("b.txt", 444)] [("a.txt", 420)] :=
  ⟨mode_cache_removal_local_only.1 ⟨[], [("a.txt", 420)], false⟩ "unlink" "a.txt"
      none (Or.inl rfl) rfl (by decide) (by decide) (by decide),
   mode_cache_removal_local_only.2.1 ⟨[], [("a.txt", 420)], false⟩
      ⟨"unlink", "a.txt", none, none⟩ true (Or.inl rfl),
   mode_cache_removal_local_only.2.2 [("a.txt", 420)] [("b.txt", 444)] "b.txt" 444
      (by decide) (by decide)⟩

/-- Claim C9: a content query answered by the hub sends the file's bytes
back to the querying session when the resolved path is an existing regular
file, and a not-found `operationError` to that session otherwise (missing
path or directory); in both cases exactly one message is produced and every
produced message is addressed to the requester only (`socket.emit`), never
broadcast. -/
theorem requestFileContent_reply_semantics :
    ∀ (root : List String) (fs : FsMap) (p : List String),
      (∀ c, lookupFsMap fs (serverOpTarget root p) = some (FsNode.file c) →
          onRequestFileContent root fs p =
            [(SendTarget.requester, ServerReply.fileContent p c "base64")]) ∧
      (lookupFsMap fs (serverOpTarget root p) = none ∨
          lookupFsMap fs (serverOpTarget root p) = some FsNode.directory →
          onRequestFileContent root fs p =
            [(SendTarget.requester, ServerReply.operationError
                "File not found on server" "requestFileContent" p)]) ∧
      (∀ t m, (t, m) ∈ onRequestFileContent root fs p →
          t = SendTarget.requester) := by
  intro root fs p
  refine ⟨?_, ?_, ?_⟩
  · intro c h
    unfold onRequestFileContent
    rw [h]
  · intro h
    unfold onRequestFileContent
    rcases h with h | h <;> rw [h]
  · intro t m hm
    unfold onRequestFileContent at hm
    rcases hl : lookupFsMap fs (serverOpTarget root p) with _ | node
    · rw [hl] at hm
      simp at hm
      exact hm.1
    · cases node <;> rw [hl] at hm <;> simp at hm <;> exact hm.1

/-- Witness for C9: a hub rooted at `/r` holding file `a.txt` answers its
content to the requester, and answers not-found for a missing path. -/
theorem requestFileContent_reply_semantics_witness :
    onRequestFileContent ["r"] [(["r", "a.txt"], FsNode.file "hi")] ["a.txt"] =
      [(SendTarget.requester, ServerReply.fileContent ["a.txt"] "hi" "base64")] ∧
    onRequestFileContent ["r"] [(["r", "a.txt"], FsNode.file "hi")] ["missing.txt"] =
      [(SendTarget.requester, ServerReply.operationError
          "File not found on server" "requestFileContent" ["missing.txt"])] :=
  ⟨(requestFileContent_reply_semantics ["r"] [(["r", "a.txt"], FsNode.file "hi")]
      ["a.txt"]).1 "hi" (by decide),
   (requestFileContent_reply_semantics ["r"] [(["r", "a.txt"], FsNode.file "hi")]
      ["missing.txt"]).2.1 (Or.inl (by decide))⟩

end FsSync
